import Mathlib

/-!
Verification of the deal.II excerpt: the `MappingQGeneric` geometric mapping
layer (`source/fe/mapping_q_generic.cc`) and the sparse direct-solver wrappers
(`source/lac/sparse_direct.cc`).

Doubles are modelled as exact rationals; `std::sqrt` of a discriminant is
modelled by an explicit parameter `s` constrained by `s * s = discriminant`
and `0 ≤ s`.
-/

/- ### 1-D inverse mapping
`internal::MappingQGeneric::transform_real_to_unit_cell` (1-D overload),
mapping_q_generic.cc:206-214. -/

/-- The 1-D inverse mapping: `(p[0] - vertices[0](0)) / (vertices[1](0) - vertices[0](0))`. -/
def transform_real_to_unit_cell_1d (vertices : Fin 2 → ℚ) (p : ℚ) : ℚ :=
  (p - vertices 0) / (vertices 1 - vertices 0)

/- ### Quadratic-root branches of the 2-D inverse mapping
mapping_q_generic.cc:243-272. -/

/-- The numerically stable root pair `(2c/(-b - s), 2c/(-b + s))` used in the
final branch of the 2-D `transform_real_to_unit_cell`; `s` models
`std::sqrt(discriminant)`. -/
def stable_quadratic_roots (b c s : ℚ) : ℚ × ℚ :=
  (2 * c / (-b - s), 2 * c / (-b + s))

/-- The textbook root pair `((-b - s)/(2a), (-b + s)/(2a))` used in the
small-`c/b` branch of the 2-D `transform_real_to_unit_cell`. -/
def textbook_quadratic_roots (a b s : ℚ) : ℚ × ℚ :=
  ((-b - s) / (2 * a), (-b + s) / (2 * a))

/- ### Hard-coded degree-1 shape function values and derivatives
`internal::MappingQGeneric::compute_shape_function_values`,
mapping_q_generic.cc:331-346 (1-D), 399-419 (2-D), 478-519 (3-D). -/

/-- 1-D degree-1 shape values written by `compute_shape_function_values`. -/
def shape_values_1d (x : ℚ) : Fin 2 → ℚ :=
  ![1 - x, x]

/-- 1-D degree-1 shape derivatives: `derivative(k,i)[j]`. -/
def shape_derivatives_1d : Fin 2 → Fin 1 → ℚ :=
  ![![-1], ![1]]

/-- 2-D degree-1 shape values written by `compute_shape_function_values`. -/
def shape_values_2d (x y : ℚ) : Fin 4 → ℚ :=
  ![(1 - x) * (1 - y), x * (1 - y), (1 - x) * y, x * y]

/-- 2-D degree-1 shape derivatives: `derivative(k,i)[j]`. -/
def shape_derivatives_2d (x y : ℚ) : Fin 4 → Fin 2 → ℚ :=
  ![![y - 1, x - 1], ![1 - y, -x], ![-y, 1 - x], ![y, x]]

/-- 3-D degree-1 shape values written by `compute_shape_function_values`. -/
def shape_values_3d (x y z : ℚ) : Fin 8 → ℚ :=
  ![(1 - x) * (1 - y) * (1 - z), x * (1 - y) * (1 - z),
    (1 - x) * y * (1 - z), x * y * (1 - z),
    (1 - x) * (1 - y) * z, x * (1 - y) * z,
    (1 - x) * y * z, x * y * z]

/-- 3-D degree-1 shape derivatives: `derivative(k,i)[j]`. -/
def shape_derivatives_3d (x y z : ℚ) : Fin 8 → Fin 3 → ℚ :=
  ![![(y - 1) * (1 - z), (x - 1) * (1 - z), (x - 1) * (1 - y)],
    ![(1 - y) * (1 - z), -x * (1 - z), x * (y - 1)],
    ![-y * (1 - z), (1 - x) * (1 - z), (x - 1) * y],
    ![y * (1 - z), x * (1 - z), -x * y],
    ![(y - 1) * z, (x - 1) * z, (1 - x) * (1 - y)],
    ![(1 - y) * z, -x * z, x * (1 - y)],
    ![-y * z, (1 - x) * z, (1 - x) * y],
    ![y * z, x * z, x * y]]

/- ### Update flags
`MappingQGeneric::requires_update_flags`, mapping_q_generic.cc:788-844.
The C++ `UpdateFlags` bitmask is modelled as a record of the named flags the
closure rules read or write, plus a `rest` field holding all other bits. -/

/-- The `UpdateFlags` bitmask: one Boolean per flag involved in
`requires_update_flags`, and `rest` for the remaining bits. -/
structure UpdateFlags where
  update_boundary_forms : Bool
  update_JxW_values : Bool
  update_normal_vectors : Bool
  update_covariant_transformation : Bool
  update_contravariant_transformation : Bool
  update_jacobians : Bool
  update_inverse_jacobians : Bool
  update_jacobian_grads : Bool
  update_jacobian_pushed_forward_grads : Bool
  update_jacobian_pushed_forward_2nd_derivatives : Bool
  update_jacobian_pushed_forward_3rd_derivatives : Bool
  rest : Nat
deriving DecidableEq

/-- Bitwise `&` on `UpdateFlags`. -/
def UpdateFlags.and (a b : UpdateFlags) : UpdateFlags where
  update_boundary_forms := a.update_boundary_forms && b.update_boundary_forms
  update_JxW_values := a.update_JxW_values && b.update_JxW_values
  update_normal_vectors := a.update_normal_vectors && b.update_normal_vectors
  update_covariant_transformation :=
    a.update_covariant_transformation && b.update_covariant_transformation
  update_contravariant_transformation :=
    a.update_contravariant_transformation && b.update_contravariant_transformation
  update_jacobians := a.update_jacobians && b.update_jacobians
  update_inverse_jacobians := a.update_inverse_jacobians && b.update_inverse_jacobians
  update_jacobian_grads := a.update_jacobian_grads && b.update_jacobian_grads
  update_jacobian_pushed_forward_grads :=
    a.update_jacobian_pushed_forward_grads && b.update_jacobian_pushed_forward_grads
  update_jacobian_pushed_forward_2nd_derivatives :=
    a.update_jacobian_pushed_forward_2nd_derivatives &&
      b.update_jacobian_pushed_forward_2nd_derivatives
  update_jacobian_pushed_forward_3rd_derivatives :=
    a.update_jacobian_pushed_forward_3rd_derivatives &&
      b.update_jacobian_pushed_forward_3rd_derivatives
  rest := a.rest &&& b.rest

/-- First closure rule: `JxW_values | normal_vectors` require `boundary_forms`. -/
def rule_boundary_forms (f : UpdateFlags) : UpdateFlags :=
  if f.update_JxW_values || f.update_normal_vectors then
    { f with update_boundary_forms := true } else f

/-- Second closure rule: several quantities require the contravariant transformation. -/
def rule_contravariant (f : UpdateFlags) : UpdateFlags :=
  if f.update_covariant_transformation || f.update_JxW_values || f.update_jacobians ||
      f.update_jacobian_grads || f.update_boundary_forms || f.update_normal_vectors then
    { f with update_contravariant_transformation := true } else f

/-- Third closure rule: inverse Jacobians and pushed-forward derivatives require
the covariant transformation. -/
def rule_covariant (f : UpdateFlags) : UpdateFlags :=
  if f.update_inverse_jacobians || f.update_jacobian_pushed_forward_grads ||
      f.update_jacobian_pushed_forward_2nd_derivatives ||
      f.update_jacobian_pushed_forward_3rd_derivatives then
    { f with update_covariant_transformation := true } else f

/-- Fourth closure rule: the contravariant transformation (Piola) requires JxW values. -/
def rule_piola_JxW (f : UpdateFlags) : UpdateFlags :=
  if f.update_contravariant_transformation then
    { f with update_JxW_values := true } else f

/-- Fifth closure rule: normal vectors require JxW values. -/
def rule_normal_JxW (f : UpdateFlags) : UpdateFlags :=
  if f.update_normal_vectors then
    { f with update_JxW_values := true } else f

/-- One iteration of the five closure rules in the body of
`requires_update_flags`; each rule reads the flags updated by the previous
ones, exactly as the sequence of `if` statements does. -/
def requires_update_flags_step (f : UpdateFlags) : UpdateFlags :=
  rule_normal_JxW (rule_piola_JxW (rule_covariant (rule_contravariant (rule_boundary_forms f))))

/-- `MappingQGeneric::requires_update_flags`: five iterations of the closure
rules starting from the input flag set. -/
def requires_update_flags (f : UpdateFlags) : UpdateFlags :=
  requires_update_flags_step (requires_update_flags_step (requires_update_flags_step
    (requires_update_flags_step (requires_update_flags_step f))))

/-- Disjunction of all named flags; `requires_update_flags` saturates
`boundary_forms`, `JxW_values` and `contravariant_transformation` to this value. -/
def allFlagsOr (f : UpdateFlags) : Bool :=
  f.update_boundary_forms || f.update_JxW_values || f.update_normal_vectors ||
    f.update_covariant_transformation || f.update_contravariant_transformation ||
    f.update_jacobians || f.update_inverse_jacobians || f.update_jacobian_grads ||
    f.update_jacobian_pushed_forward_grads ||
    f.update_jacobian_pushed_forward_2nd_derivatives ||
    f.update_jacobian_pushed_forward_3rd_derivatives

/- ### Cell similarity, internal data and `fill_fe_values`
`maybe_update_Jacobians`, mapping_q_generic.cc:932-1001, and the JxW /
Jacobian blocks of `MappingQGeneric::fill_fe_values`,
mapping_q_generic.cc:1403-1498, for the square case `dim == spacedim`
relevant to the claims. -/

/-- `CellSimilarity::Similarity`. -/
inductive CellSimilarity where
  | none
  | translation
  | inverted_translation
  | invalid_next_cell
deriving DecidableEq

/-- The part of `MappingQGeneric::InternalData` used by `maybe_update_Jacobians`
and the JxW / Jacobian blocks of `fill_fe_values`: the flags to update, the
shape-function count, the mapping support points (`mapping_support_points[k][i]`),
the reference shape derivatives (`derivative(point + data_set, k)[j]`) and the
current contents of the `contravariant` array. -/
structure InternalData (d sd : ℕ) where
  update_each : UpdateFlags
  n_shape_functions : ℕ
  mapping_support_points : ℕ → Fin sd → ℚ
  derivative : ℕ → ℕ → Fin d → ℚ
  contravariant : ℕ → Matrix (Fin sd) (Fin d) ℚ

/-- The contravariant (Jacobian) update of `maybe_update_Jacobians`: when the
contravariant transformation is requested and the cell is not a translation of
the previous one, each entry is the peeled sum
`derivative(point,0)[j] * support_point[0][i] + Σ_{k≥1} derivative(point,k)[j] * support_point[k][i]`;
otherwise the stored `contravariant` array is left as it is.  The covariant and
volume-element branches of the source update other fields not referenced by
the claims. -/
def maybe_update_Jacobians {d sd : ℕ} (cell_similarity : CellSimilarity) (data_set : ℕ)
    (data : InternalData d sd) : ℕ → Matrix (Fin sd) (Fin d) ℚ :=
  if data.update_each.update_contravariant_transformation = true ∧
      cell_similarity ≠ CellSimilarity.translation then
    fun point => Matrix.of fun i j =>
      data.derivative (point + data_set) 0 j * data.mapping_support_points 0 i +
        ∑ k ∈ Finset.Ico 1 data.n_shape_functions,
          data.derivative (point + data_set) k j * data.mapping_support_points k i
  else data.contravariant

/-- The two members of the output object touched by the modelled blocks of
`fill_fe_values`. -/
structure MappingOutput (d sd : ℕ) where
  JxW_values : ℕ → ℚ
  jacobians : ℕ → Matrix (Fin sd) (Fin d) ℚ

/-- The `dim == spacedim` JxW block (weights times the determinant of the
contravariant matrix, mapping_q_generic.cc:1403-1437) and the Jacobian copy
block (mapping_q_generic.cc:1491-1498) of `MappingQGeneric::fill_fe_values`,
after `maybe_update_Jacobians` has run on the internal data. -/
def fill_fe_values {d : ℕ} (cell_similarity : CellSimilarity)
    (data : InternalData d d) (weights : ℕ → ℚ)
    (output_data : MappingOutput d d) : MappingOutput d d :=
  let contravariant := maybe_update_Jacobians cell_similarity 0 data
  { JxW_values :=
      if (data.update_each.update_normal_vectors || data.update_each.update_JxW_values) = true ∧
          cell_similarity ≠ CellSimilarity.translation then
        fun point => weights point * (contravariant point).det
      else output_data.JxW_values
    jacobians :=
      if data.update_each.update_jacobians = true ∧
          cell_similarity ≠ CellSimilarity.translation then
        fun point => contravariant point
      else output_data.jacobians }

/-- Flag set requesting only `update_jacobians` (used as a concrete witness). -/
def exampleReqJacobians : UpdateFlags :=
  ⟨false, false, false, false, false, true, false, false, false, false, false, 0⟩

/-- Flag set requesting only `update_JxW_values` (used as a concrete witness). -/
def exampleReqJxW : UpdateFlags :=
  ⟨false, true, false, false, false, false, false, false, false, false, false, 0⟩

/-- Concrete one-point internal data in one dimension (used as a witness). -/
def exampleDataJacobians : InternalData 1 1 where
  update_each := requires_update_flags exampleReqJacobians
  n_shape_functions := 1
  mapping_support_points := fun _ _ => 1
  derivative := fun _ _ _ => 1
  contravariant := fun _ => Matrix.of fun _ _ => 0

/-- Concrete one-point internal data in one dimension (used as a witness). -/
def exampleDataJxW : InternalData 1 1 where
  update_each := requires_update_flags exampleReqJxW
  n_shape_functions := 1
  mapping_support_points := fun _ _ => 1
  derivative := fun _ _ _ => 1
  contravariant := fun _ => Matrix.of fun _ _ => 0

/-- Concrete output object (used as a witness). -/
def exampleOutput : MappingOutput 1 1 :=
  ⟨fun _ => 0, fun _ => Matrix.of fun _ _ => 0⟩

/- ### Sparse direct solver wrappers
`SparseDirectUMFPACK::sort_arrays` (sparse_direct.cc:99-133),
`SparseDirectUMFPACK::factorize` (sparse_direct.cc:198-289) and
`SparseDirectMUMPS::initialize_matrix` (sparse_direct.cc:437-504).
A sparse matrix is modelled as its list of rows, each row the list of stored
`(column, value)` entries in storage order.  `Ai`/`Ax` entries of one row are
modelled as pairs, since the code always swaps them together. -/

/-- The single bubble run of `SparseDirectUMFPACK::sort_arrays` over one row
segment: while the current entry's column exceeds the next one's, swap the
adjacent `(Ai, Ax)` pairs and advance the cursor. -/
def sort_arrays_row : List (ℕ × ℚ) → List (ℕ × ℚ)
  | a :: b :: rest =>
      if a.1 > b.1 then b :: sort_arrays_row (a :: rest)
      else a :: b :: rest
  | l => l
termination_by l => l.length
decreasing_by simp

/-- `matrix.n_nonzero_elements()`: the total number of stored entries. -/
def n_nonzero_elements (rows : List (List (ℕ × ℚ))) : ℕ :=
  (rows.map List.length).sum

/-- The row-start array built by `SparseDirectUMFPACK::factorize`:
`Ap[0] = 0` and `Ap[row] = Ap[row-1] + row_length(row-1)`. -/
def factorize_Ap (rows : List (List (ℕ × ℚ))) : List ℕ :=
  List.scanl (fun a r => a + r.length) 0 rows

/-- The mutable arrays of the element-copy phase of `factorize`: `Ai`, `Ax`
and the per-row write cursors `row_pointers`. -/
structure FactorizeArrays where
  Ai : ℕ → ℕ
  Ax : ℕ → ℚ
  row_pointers : ℕ → ℕ

/-- One iteration of the inner copy loop of `factorize`: write the entry's
column into `Ai` and its value into `Ax` at the row's cursor, then advance the
cursor. -/
def copy_entry (row : ℕ) (st : FactorizeArrays) (e : ℕ × ℚ) : FactorizeArrays where
  Ai := Function.update st.Ai (st.row_pointers row) e.1
  Ax := Function.update st.Ax (st.row_pointers row) e.2
  row_pointers := Function.update st.row_pointers row (st.row_pointers row + 1)

/-- The inner copy loop of `factorize` over the stored entries of one row. -/
def copy_row (st : FactorizeArrays) (row : ℕ) (entries : List (ℕ × ℚ)) : FactorizeArrays :=
  entries.foldl (copy_entry row) st

/-- The outer copy loop of `factorize`, processing rows `rowIdx, rowIdx+1, ...`. -/
def copy_elements_from (rowIdx : ℕ) : List (List (ℕ × ℚ)) → FactorizeArrays → FactorizeArrays
  | [], st => st
  | r :: rs, st => copy_elements_from (rowIdx + 1) rs (copy_row st rowIdx r)

/-- The initial arrays of the copy phase: `row_pointers` starts as a copy of
`Ap`. -/
def factorize_initial_arrays (rows : List (List (ℕ × ℚ))) : FactorizeArrays where
  Ai := fun _ => 0
  Ax := fun _ => 0
  row_pointers := fun i => (factorize_Ap rows).getD i 0

/-- The element-copy phase of `factorize`: `row_pointers` starts as a copy of
`Ap` and all rows are copied in order. -/
def factorize_copy (rows : List (List (ℕ × ℚ))) : FactorizeArrays :=
  copy_elements_from 0 rows (factorize_initial_arrays rows)

/-- The inner loop of `SparseDirectMUMPS::initialize_matrix` over one row's
stored entries: keep an entry exactly when `std::abs(value) > 0`, recording
`(value, row + 1, column + 1)` in the three arrays `a`, `irn`, `jcn`. -/
def initialize_matrix_row (row : ℕ) : List (ℕ × ℚ) → List ℚ × List ℕ × List ℕ
  | [] => ([], [], [])
  | e :: es =>
      let t := initialize_matrix_row row es
      if |e.2| > 0 then (e.2 :: t.1, (row + 1) :: t.2.1, (e.1 + 1) :: t.2.2)
      else t

/-- The outer loop of `SparseDirectMUMPS::initialize_matrix` over the rows,
starting at row index `row`. -/
def initialize_matrix_from (row : ℕ) : List (List (ℕ × ℚ)) → List ℚ × List ℕ × List ℕ
  | [] => ([], [], [])
  | r :: rs =>
      let h := initialize_matrix_row row r
      let t := initialize_matrix_from (row + 1) rs
      (h.1 ++ t.1, h.2.1 ++ t.2.1, h.2.2 ++ t.2.2)

/-- `SparseDirectMUMPS::initialize_matrix`: the arrays `a`, `irn`, `jcn` built
from the matrix, row by row. -/
def initialize_matrix (rows : List (List (ℕ × ℚ))) : List ℚ × List ℕ × List ℕ :=
  initialize_matrix_from 0 rows

/-- The row-major list of `(row, column, value)` triples of all stored matrix
entries, with rows numbered from `row`. -/
def row_major_entries_from (row : ℕ) : List (List (ℕ × ℚ)) → List (ℕ × ℕ × ℚ)
  | [] => []
  | r :: rs => r.map (fun e => (row, e.1, e.2)) ++ row_major_entries_from (row + 1) rs

/-- The stored entries kept by the MUMPS path: those of absolute value
strictly greater than zero, in row-major order. -/
def mumps_kept_entries (rows : List (List (ℕ × ℚ))) : List (ℕ × ℕ × ℚ) :=
  (row_major_entries_from 0 rows).filter (fun t => |t.2.2| > 0)

/- ### 2-D inverse mapping
`internal::MappingQGeneric::transform_real_to_unit_cell` (2-D overload),
mapping_q_generic.cc:218-304.  `s` models `std::sqrt(discriminant)` and is
constrained in the theorems by `s * s = discriminant` and `0 ≤ s`. -/

/-- Quadratic coefficient `a = (x1-x3)(y0-y2) - (x0-x2)(y1-y3)`. -/
def quad_a (v : Fin 4 → ℚ × ℚ) : ℚ :=
  ((v 1).1 - (v 3).1) * ((v 0).2 - (v 2).2) - ((v 0).1 - (v 2).1) * ((v 1).2 - (v 3).2)

/-- Quadratic coefficient `b`. -/
def quad_b (v : Fin 4 → ℚ × ℚ) (p : ℚ × ℚ) : ℚ :=
  -((v 0).1 - (v 1).1 - (v 2).1 + (v 3).1) * p.2 + (p.1 - 2 * (v 1).1 + (v 3).1) * (v 0).2
    - (p.1 - 2 * (v 0).1 + (v 2).1) * (v 1).2 - (p.1 - (v 1).1) * (v 2).2
    + (p.1 - (v 0).1) * (v 3).2

/-- Quadratic coefficient `c = (x0-x1)y - (x-x1)y0 + (x-x0)y1`. -/
def quad_c (v : Fin 4 → ℚ × ℚ) (p : ℚ × ℚ) : ℚ :=
  ((v 0).1 - (v 1).1) * p.2 - (p.1 - (v 1).1) * (v 0).2 + (p.1 - (v 0).1) * (v 1).2

/-- The discriminant `b*b - 4*a*c`. -/
def quad_disc (v : Fin 4 → ℚ × ℚ) (p : ℚ × ℚ) : ℚ :=
  quad_b v p * quad_b v p - 4 * quad_a v * quad_c v p

/-- First candidate root `eta1`: the linear formula when `a == 0 && b != 0`,
the textbook formula when `|c/b| < 1e-12`, and the numerically stable formula
otherwise.  On IEEE doubles `c/b` with `b == 0` is infinite or NaN, so the
comparison `std::abs(c/b) < 1e-12` is false there and the code falls through
to the stable formula; the second guard therefore carries `b ≠ 0`. -/
def eta1_of (v : Fin 4 → ℚ × ℚ) (p : ℚ × ℚ) (s : ℚ) : ℚ :=
  if quad_a v = 0 ∧ quad_b v p ≠ 0 then -quad_c v p / quad_b v p
  else if quad_b v p ≠ 0 ∧ |quad_c v p / quad_b v p| < 1/10^12 then
    (-quad_b v p - s) / (2 * quad_a v)
  else 2 * quad_c v p / (-quad_b v p - s)

/-- Second candidate root `eta2` (same branch structure as `eta1`). -/
def eta2_of (v : Fin 4 → ℚ × ℚ) (p : ℚ × ℚ) (s : ℚ) : ℚ :=
  if quad_a v = 0 ∧ quad_b v p ≠ 0 then -quad_c v p / quad_b v p
  else if quad_b v p ≠ 0 ∧ |quad_c v p / quad_b v p| < 1/10^12 then
    (-quad_b v p + s) / (2 * quad_a v)
  else 2 * quad_c v p / (-quad_b v p + s)

/-- The selected root: the candidate closer to the center `1/2` of the cell. -/
def eta_of (v : Fin 4 → ℚ × ℚ) (p : ℚ × ℚ) (s : ℚ) : ℚ :=
  if |eta1_of v p s - 1/2| < |eta2_of v p s - 1/2| then eta1_of v p s else eta2_of v p s

/-- `subexpr0 = -eta*x2 + x0*(eta-1)`. -/
def subexpr0_of (v : Fin 4 → ℚ × ℚ) (p : ℚ × ℚ) (s : ℚ) : ℚ :=
  -(eta_of v p s) * (v 2).1 + (v 0).1 * (eta_of v p s - 1)

/-- `xi_denominator0 = eta*x3 - x1*(eta-1) + subexpr0`. -/
def xi_denominator0_of (v : Fin 4 → ℚ × ℚ) (p : ℚ × ℚ) (s : ℚ) : ℚ :=
  eta_of v p s * (v 3).1 - (v 1).1 * (eta_of v p s - 1) + subexpr0_of v p s

/-- `max_x`: largest absolute vertex x-coordinate. -/
def max_x_of (v : Fin 4 → ℚ × ℚ) : ℚ :=
  max (max |(v 0).1| |(v 1).1|) (max |(v 2).1| |(v 3).1|)

/-- `subexpr1 = -eta*y2 + y0*(eta-1)`. -/
def subexpr1_of (v : Fin 4 → ℚ × ℚ) (p : ℚ × ℚ) (s : ℚ) : ℚ :=
  -(eta_of v p s) * (v 2).2 + (v 0).2 * (eta_of v p s - 1)

/-- `xi_denominator1 = eta*y3 - y1*(eta-1) + subexpr1`. -/
def xi_denominator1_of (v : Fin 4 → ℚ × ℚ) (p : ℚ × ℚ) (s : ℚ) : ℚ :=
  eta_of v p s * (v 3).2 - (v 1).2 * (eta_of v p s - 1) + subexpr1_of v p s

/-- `max_y`: largest absolute vertex y-coordinate. -/
def max_y_of (v : Fin 4 → ℚ × ℚ) : ℚ :=
  max (max |(v 0).2| |(v 1).2|) (max |(v 2).2| |(v 3).2|)

/-- The 2-D `transform_real_to_unit_cell`: `(2,2)` on negative discriminant,
otherwise `(xi, eta)` from the first xi-formula whose denominator exceeds its
relative tolerance, and `(2,2)` when both denominators fail. -/
def transform_real_to_unit_cell_2d (v : Fin 4 → ℚ × ℚ) (p : ℚ × ℚ) (s : ℚ) : ℚ × ℚ :=
  if quad_disc v p < 0 then (2, 2)
  else if |xi_denominator0_of v p s| > 1/10^10 * max_x_of v then
    ((p.1 + subexpr0_of v p s) / xi_denominator0_of v p s, eta_of v p s)
  else if |xi_denominator1_of v p s| > 1/10^10 * max_y_of v then
    ((subexpr1_of v p s + p.2) / xi_denominator1_of v p s, eta_of v p s)
  else (2, 2)

/-- The four vertices of the unit square, in deal.II vertex order (used in the
counterexample and the witness). -/
def unit_square_vertices : Fin 4 → ℚ × ℚ :=
  ![(0, 0), (1, 0), (0, 1), (1, 1)]

/- ### Theorems -/

lemma nat_land_self (n : ℕ) : n &&& n = n :=
  Nat.eq_of_testBit_eq fun i => by simp [Nat.testBit_and]

lemma rule_boundary_forms_eq (f : UpdateFlags) :
    rule_boundary_forms f =
      { f with update_boundary_forms :=
          f.update_boundary_forms || f.update_JxW_values || f.update_normal_vectors } := by
  obtain ⟨b1, b2, b3, b4, b5, b6, b7, b8, b9, b10, b11, r⟩ := f
  unfold rule_boundary_forms
  split_ifs with h <;> simp_all
  tauto

lemma rule_contravariant_eq (f : UpdateFlags) :
    rule_contravariant f =
      { f with update_contravariant_transformation :=
          f.update_contravariant_transformation || f.update_covariant_transformation ||
            f.update_JxW_values || f.update_jacobians || f.update_jacobian_grads ||
            f.update_boundary_forms || f.update_normal_vectors } := by
  obtain ⟨b1, b2, b3, b4, b5, b6, b7, b8, b9, b10, b11, r⟩ := f
  unfold rule_contravariant
  split_ifs with h <;> simp_all
  tauto

lemma rule_covariant_eq (f : UpdateFlags) :
    rule_covariant f =
      { f with update_covariant_transformation :=
          f.update_covariant_transformation || f.update_inverse_jacobians ||
            f.update_jacobian_pushed_forward_grads ||
            f.update_jacobian_pushed_forward_2nd_derivatives ||
            f.update_jacobian_pushed_forward_3rd_derivatives } := by
  obtain ⟨b1, b2, b3, b4, b5, b6, b7, b8, b9, b10, b11, r⟩ := f
  unfold rule_covariant
  split_ifs with h <;> simp_all
  tauto

lemma rule_piola_JxW_eq (f : UpdateFlags) :
    rule_piola_JxW f =
      { f with update_JxW_values :=
          f.update_JxW_values || f.update_contravariant_transformation } := by
  obtain ⟨b1, b2, b3, b4, b5, b6, b7, b8, b9, b10, b11, r⟩ := f
  unfold rule_piola_JxW
  split_ifs with h <;> simp_all

lemma rule_normal_JxW_eq (f : UpdateFlags) :
    rule_normal_JxW f =
      { f with update_JxW_values := f.update_JxW_values || f.update_normal_vectors } := by
  obtain ⟨b1, b2, b3, b4, b5, b6, b7, b8, b9, b10, b11, r⟩ := f
  unfold rule_normal_JxW
  split_ifs with h <;> simp_all

set_option maxHeartbeats 1000000 in
/-- Closed form of `requires_update_flags`: `boundary_forms`, `JxW_values` and
`contravariant_transformation` saturate to the disjunction of all flags,
`covariant_transformation` absorbs the flags of the third rule, and all other
flags pass through unchanged. -/
lemma requires_update_flags_eq (f : UpdateFlags) :
    requires_update_flags f =
      { f with
        update_boundary_forms := allFlagsOr f,
        update_JxW_values := allFlagsOr f,
        update_contravariant_transformation := allFlagsOr f,
        update_covariant_transformation :=
          f.update_covariant_transformation || f.update_inverse_jacobians ||
            f.update_jacobian_pushed_forward_grads ||
            f.update_jacobian_pushed_forward_2nd_derivatives ||
            f.update_jacobian_pushed_forward_3rd_derivatives } := by
  obtain ⟨b1, b2, b3, b4, b5, b6, b7, b8, b9, b10, b11, r⟩ := f
  simp only [requires_update_flags, requires_update_flags_step, rule_boundary_forms_eq,
    rule_contravariant_eq, rule_covariant_eq, rule_piola_JxW_eq, rule_normal_JxW_eq, allFlagsOr]
  cases b1 <;> cases b2 <;> cases b3 <;> cases b4 <;> cases b5 <;> cases b6 <;> cases b7 <;>
    cases b8 <;> cases b9 <;> cases b10 <;> cases b11 <;> rfl

set_option maxHeartbeats 1000000 in
/-- C8: `requires_update_flags` is extensive (`out & in == in`) and
idempotent (`requires_update_flags (requires_update_flags in) =
requires_update_flags in`). -/
theorem requires_update_flags_extensive_idempotent (f : UpdateFlags) :
    UpdateFlags.and (requires_update_flags f) f = f ∧
      requires_update_flags (requires_update_flags f) = requires_update_flags f := by
  obtain ⟨b1, b2, b3, b4, b5, b6, b7, b8, b9, b10, b11, r⟩ := f
  simp only [requires_update_flags_eq, UpdateFlags.and, allFlagsOr, nat_land_self]
  constructor <;>
    · cases b1 <;> cases b2 <;> cases b3 <;> cases b4 <;> cases b5 <;> cases b6 <;> cases b7 <;>
        cases b8 <;> cases b9 <;> cases b10 <;> cases b11 <;> rfl

/-- C3: the value returned by the 1-D `transform_real_to_unit_cell` satisfies
the round-trip equation `(1 - t) * v0 + t * v1 = p` whenever the two vertices
are distinct. -/
theorem transform_real_to_unit_cell_1d_round_trip
    (vertices : Fin 2 → ℚ) (p : ℚ) (h : vertices 0 ≠ vertices 1) :
    (1 - transform_real_to_unit_cell_1d vertices p) * vertices 0 +
      transform_real_to_unit_cell_1d vertices p * vertices 1 = p := by
  unfold transform_real_to_unit_cell_1d
  have h' : vertices 1 - vertices 0 ≠ 0 := sub_ne_zero.mpr (Ne.symm h)
  field_simp
  ring

/-- C3 witness: concrete instance with `v0 = 0`, `v1 = 2`, `p = 1`. -/
theorem transform_real_to_unit_cell_1d_round_trip_witness :
    (![(0 : ℚ), 2] 0 ≠ ![(0 : ℚ), 2] 1) ∧
      (1 - transform_real_to_unit_cell_1d ![(0 : ℚ), 2] 1) * ![(0 : ℚ), 2] 0 +
        transform_real_to_unit_cell_1d ![(0 : ℚ), 2] 1 * ![(0 : ℚ), 2] 1 = 1 :=
  ⟨by decide, transform_real_to_unit_cell_1d_round_trip ![0, 2] 1 (by decide)⟩

/-- C5: over exact arithmetic, the numerically stable root pair of the 2-D
inverse mapping equals, as an unordered pair, the textbook root pair of the
small-`c/b` branch, given `a ≠ 0`, `s * s = b*b - 4*a*c` and nonzero
denominators `-b - s`, `-b + s`. -/
theorem stable_roots_eq_textbook_roots
    (a b c s : ℚ) (ha : a ≠ 0) (hs : s * s = b * b - 4 * a * c)
    (h1 : -b - s ≠ 0) (h2 : -b + s ≠ 0) :
    ({(stable_quadratic_roots b c s).1, (stable_quadratic_roots b c s).2} : Set ℚ) =
      {(textbook_quadratic_roots a b s).1, (textbook_quadratic_roots a b s).2} := by
  unfold stable_quadratic_roots textbook_quadratic_roots
  have ha2 : (2 : ℚ) * a ≠ 0 := by
    exact mul_ne_zero two_ne_zero ha
  have e1 : 2 * c / (-b - s) = (-b + s) / (2 * a) := by
    rw [div_eq_div_iff h1 ha2]
    linear_combination hs
  have e2 : 2 * c / (-b + s) = (-b - s) / (2 * a) := by
    rw [div_eq_div_iff h2 ha2]
    linear_combination hs
  rw [e1, e2]
  exact Set.pair_comm _ _

/-- C5 witness: `a = 1`, `b = -3`, `c = 2`, `s = 1`. -/
theorem stable_roots_eq_textbook_roots_witness :
    ((1 : ℚ) ≠ 0 ∧ (1 : ℚ) * 1 = (-3) * (-3) - 4 * 1 * 2 ∧
        -(-3 : ℚ) - 1 ≠ 0 ∧ -(-3 : ℚ) + 1 ≠ 0) ∧
      ({(stable_quadratic_roots (-3) 2 1).1, (stable_quadratic_roots (-3) 2 1).2} : Set ℚ) =
        {(textbook_quadratic_roots 1 (-3) 1).1, (textbook_quadratic_roots 1 (-3) 1).2} :=
  ⟨⟨by norm_num, by norm_num, by norm_num, by norm_num⟩,
    stable_roots_eq_textbook_roots 1 (-3) 2 1 (by norm_num) (by norm_num) (by norm_num)
      (by norm_num)⟩

/-- C9: the hard-coded degree-1 shape functions form a partition of unity and
their gradients sum to zero, in 1-D, 2-D and 3-D, at every unit point. -/
theorem shape_function_values_partition_of_unity (x y z : ℚ) :
    (∑ k, shape_values_1d x k) = 1 ∧
      (∑ k, shape_derivatives_1d k 0) = 0 ∧
      (∑ k, shape_values_2d x y k) = 1 ∧
      (∑ k, shape_derivatives_2d x y k 0) = 0 ∧
      (∑ k, shape_derivatives_2d x y k 1) = 0 ∧
      (∑ k, shape_values_3d x y z k) = 1 ∧
      (∑ k, shape_derivatives_3d x y z k 0) = 0 ∧
      (∑ k, shape_derivatives_3d x y z k 1) = 0 ∧
      (∑ k, shape_derivatives_3d x y z k 2) = 0 := by
  refine ⟨?_, ?_, ?_, ?_, ?_, ?_, ?_, ?_, ?_⟩ <;>
    · simp only [shape_values_1d, shape_derivatives_1d, shape_values_2d, shape_derivatives_2d,
        shape_values_3d, shape_derivatives_3d, Fin.sum_univ_succ, Fin.sum_univ_zero,
        Matrix.cons_val_zero, Matrix.cons_val_succ, Matrix.cons_val_one, Matrix.cons_val_two,
        Matrix.head_cons, Matrix.tail_cons, Matrix.cons_val_fin_one]
      ring

/-- Helper: requesting `update_jacobians` makes `requires_update_flags` set
the contravariant transformation flag. -/
lemma requires_sets_contravariant (f : UpdateFlags)
    (h : f.update_jacobians = true ∨ f.update_JxW_values = true) :
    (requires_update_flags f).update_contravariant_transformation = true := by
  rw [requires_update_flags_eq]
  rcases h with h | h <;> simp [allFlagsOr, h]

/-- Helper: the `update_jacobians` flag passes through `requires_update_flags`. -/
lemma requires_keeps_jacobians (f : UpdateFlags) (h : f.update_jacobians = true) :
    (requires_update_flags f).update_jacobians = true := by
  rw [requires_update_flags_eq]
  exact h

/-- Helper: the `update_JxW_values` flag survives `requires_update_flags`. -/
lemma requires_keeps_JxW (f : UpdateFlags) (h : f.update_JxW_values = true) :
    (requires_update_flags f).update_JxW_values = true := by
  rw [requires_update_flags_eq]
  simp [allFlagsOr, h]

/-- Helper: the peeled sum of `maybe_update_Jacobians` equals the full sum over
all shape functions. -/
lemma peeled_sum_eq_range_sum (n : ℕ) (hn : 0 < n) (g : ℕ → ℚ) :
    g 0 + ∑ k ∈ Finset.Ico 1 n, g k = ∑ k ∈ Finset.range n, g k := by
  rw [Finset.range_eq_Ico, Finset.sum_eq_sum_Ico_succ_bot hn]

/-- C1: when `update_jacobians` is requested (through `requires_update_flags`,
as `get_data` does) and the cell is not a translation of the previous one,
`fill_fe_values` stores in `output_data.jacobians[point]` the contravariant
matrix of `maybe_update_Jacobians`: entry `(i,j)` is the sum over all shape
functions `k` of `derivative(point,k)[j] * mapping_support_points[k][i]`. -/
theorem fill_fe_values_jacobians_entry {d : ℕ} (cell_similarity : CellSimilarity)
    (req : UpdateFlags) (data : InternalData d d) (weights : ℕ → ℚ)
    (output_data : MappingOutput d d)
    (hflags : data.update_each = requires_update_flags req)
    (hjac : req.update_jacobians = true)
    (hsim : cell_similarity ≠ CellSimilarity.translation)
    (hn : 0 < data.n_shape_functions)
    (point : ℕ) (i : Fin d) (j : Fin d) :
    (fill_fe_values cell_similarity data weights output_data).jacobians point i j =
      ∑ k ∈ Finset.range data.n_shape_functions,
        data.derivative point k j * data.mapping_support_points k i := by
  have hjac' : data.update_each.update_jacobians = true := by
    rw [hflags]; exact requires_keeps_jacobians req hjac
  have hcontra : data.update_each.update_contravariant_transformation = true := by
    rw [hflags]; exact requires_sets_contravariant req (Or.inl hjac)
  simp only [fill_fe_values]
  rw [if_pos ⟨hjac', hsim⟩]
  rw [maybe_update_Jacobians, if_pos ⟨hcontra, hsim⟩]
  simp only [Matrix.of_apply, Nat.add_zero]
  exact peeled_sum_eq_range_sum data.n_shape_functions hn
    (fun k => data.derivative point k j * data.mapping_support_points k i)

/-- C1 witness: a concrete one-point, one-dimensional instance. -/
theorem fill_fe_values_jacobians_entry_witness :
    (exampleReqJacobians.update_jacobians = true ∧
        CellSimilarity.none ≠ CellSimilarity.translation ∧
        0 < exampleDataJacobians.n_shape_functions) ∧
      (fill_fe_values CellSimilarity.none exampleDataJacobians (fun _ => 1)
            exampleOutput).jacobians 0 0 0 =
        ∑ k ∈ Finset.range exampleDataJacobians.n_shape_functions,
          exampleDataJacobians.derivative 0 k 0 *
            exampleDataJacobians.mapping_support_points k 0 :=
  ⟨⟨rfl, by decide, by decide⟩,
    fill_fe_values_jacobians_entry CellSimilarity.none exampleReqJacobians
      exampleDataJacobians (fun _ => 1) exampleOutput rfl rfl (by decide) (by decide) 0 0 0⟩

/-- C2: when `update_JxW_values` is requested (through
`requires_update_flags`) and the cell is not a translation of the previous
one, in the `dim == spacedim` case `fill_fe_values` sets
`output_data.JxW_values[point]` to the quadrature weight times the determinant
of the contravariant matrix, under the distorted-cell precondition
`det > 1e-12 * (diameter/sqrt(dim))^dim`. -/
theorem fill_fe_values_JxW_values {d : ℕ} (cell_similarity : CellSimilarity)
    (req : UpdateFlags) (data : InternalData d d) (weights : ℕ → ℚ)
    (output_data : MappingOutput d d) (diameter : ℝ)
    (hflags : data.update_each = requires_update_flags req)
    (hJxW : req.update_JxW_values = true)
    (hsim : cell_similarity ≠ CellSimilarity.translation)
    (point : ℕ)
    (hdet : (1 : ℝ)/10^12 * (diameter / Real.sqrt d) ^ d <
        ((maybe_update_Jacobians cell_similarity 0 data point).det : ℝ)) :
    (fill_fe_values cell_similarity data weights output_data).JxW_values point =
      weights point * (maybe_update_Jacobians cell_similarity 0 data point).det := by
  have hJxW' : data.update_each.update_JxW_values = true := by
    rw [hflags]; exact requires_keeps_JxW req hJxW
  simp only [fill_fe_values]
  rw [if_pos ⟨by simp [hJxW'], hsim⟩]

/-- Helper: the determinant of the witness' contravariant matrix is `1`. -/
lemma exampleDataJxW_det :
    (maybe_update_Jacobians CellSimilarity.none 0 exampleDataJxW 0).det = 1 := by
  rw [maybe_update_Jacobians, if_pos]
  · simp [Matrix.det_fin_one, exampleDataJxW]
  · constructor
    · show (requires_update_flags exampleReqJxW).update_contravariant_transformation = true
      exact requires_sets_contravariant exampleReqJxW (Or.inr rfl)
    · decide

/-- C2 witness: a concrete one-point, one-dimensional instance with unit
diameter, whose contravariant determinant `1` exceeds the distortion
threshold. -/
theorem fill_fe_values_JxW_values_witness :
    (exampleReqJxW.update_JxW_values = true ∧
        CellSimilarity.none ≠ CellSimilarity.translation ∧
        (1 : ℝ)/10^12 * ((1 : ℝ) / Real.sqrt 1) ^ 1 <
          ((maybe_update_Jacobians CellSimilarity.none 0 exampleDataJxW 0).det : ℝ)) ∧
      (fill_fe_values CellSimilarity.none exampleDataJxW (fun _ => 1)
            exampleOutput).JxW_values 0 =
        1 * (maybe_update_Jacobians CellSimilarity.none 0 exampleDataJxW 0).det := by
  have hd : (1 : ℝ)/10^12 * ((1 : ℝ) / Real.sqrt 1) ^ 1 <
      ((maybe_update_Jacobians CellSimilarity.none 0 exampleDataJxW 0).det : ℝ) := by
    rw [exampleDataJxW_det, Real.sqrt_one]
    norm_num
  exact ⟨⟨rfl, by decide, hd⟩,
    fill_fe_values_JxW_values CellSimilarity.none exampleReqJxW exampleDataJxW
      (fun _ => 1) exampleOutput 1 rfl rfl (by decide) 0 (by exact_mod_cast hd)⟩

/-- Helper: the bubble run only permutes the row segment (`Ai` and `Ax`
entries are swapped together). -/
lemma sort_arrays_row_perm : ∀ l : List (ℕ × ℚ), (sort_arrays_row l).Perm l
  | [] => by rw [sort_arrays_row.eq_def]
  | [a] => by rw [sort_arrays_row.eq_def]
  | a :: b :: rest => by
      rw [sort_arrays_row.eq_def]
      show ((if a.1 > b.1 then b :: sort_arrays_row (a :: rest) else a :: b :: rest)).Perm
        (a :: b :: rest)
      split_ifs with h
      · exact ((sort_arrays_row_perm (a :: rest)).cons b).trans (List.Perm.swap a b rest)
      · exact List.Perm.refl _
termination_by l => l.length
decreasing_by simp

/-- Helper: rows with one or no entry are left untouched by the bubble run. -/
lemma sort_arrays_row_short (l : List (ℕ × ℚ)) (h : l.length ≤ 1) :
    sort_arrays_row l = l := by
  match l with
  | [] => rw [sort_arrays_row.eq_def]
  | [a] => rw [sort_arrays_row.eq_def]
  | a :: b :: rest => simp [List.length_cons] at h

/-- Helper: if the tail is strictly sorted by column and the head's column
occurs nowhere in the tail, the bubble run sorts the whole segment. -/
lemma sort_arrays_row_sorted_aux :
    ∀ (t : List (ℕ × ℚ)) (d : ℕ × ℚ),
      t.Pairwise (fun e f => e.1 < f.1) → (∀ e ∈ t, d.1 ≠ e.1) →
      (sort_arrays_row (d :: t)).Pairwise (fun e f => e.1 < f.1)
  | [], d, _, _ => by
      rw [sort_arrays_row.eq_def]
      simp
  | b :: rest, d, hs, hd => by
      rw [sort_arrays_row.eq_def]
      show List.Pairwise (fun e f => e.1 < f.1)
        (if d.1 > b.1 then b :: sort_arrays_row (d :: rest) else d :: b :: rest)
      rw [List.pairwise_cons] at hs
      obtain ⟨hb, hrest⟩ := hs
      split_ifs with h
      · have hdrest : ∀ e ∈ rest, d.1 ≠ e.1 := fun e he =>
          hd e (List.mem_cons_of_mem b he)
        have htail := sort_arrays_row_sorted_aux rest d hrest hdrest
        rw [List.pairwise_cons]
        refine ⟨?_, htail⟩
        intro e he
        have he' : e ∈ d :: rest := (sort_arrays_row_perm (d :: rest)).mem_iff.mp he
        rcases List.mem_cons.mp he' with rfl | he''
        · exact h
        · exact hb e he''
      · have hdb : d.1 < b.1 :=
          lt_of_le_of_ne (not_lt.mp h) (hd b (List.mem_cons_self b rest))
        rw [List.pairwise_cons]
        refine ⟨?_, ?_⟩
        · intro e he
          rcases List.mem_cons.mp he with rfl | he'
          · exact hdb
          · exact hdb.trans (hb e he')
        · rw [List.pairwise_cons]
          exact ⟨hb, hrest⟩

/-- C7: on a row segment whose entries are strictly sorted by column except
that the first (diagonal) entry may be out of place, the single bubble run of
`sort_arrays` sorts the segment strictly by column, the multiset of
`(column, value)` pairs is unchanged, and rows with one or no entry are left
untouched. -/
theorem sort_arrays_single_pass (d : ℕ × ℚ) (t : List (ℕ × ℚ))
    (hs : t.Pairwise (fun e f => e.1 < f.1))
    (hd : ∀ e ∈ t, d.1 ≠ e.1) :
    (sort_arrays_row (d :: t)).Pairwise (fun e f => e.1 < f.1) ∧
      (sort_arrays_row (d :: t)).Perm (d :: t) ∧
      (∀ l : List (ℕ × ℚ), l.length ≤ 1 → sort_arrays_row l = l) :=
  ⟨sort_arrays_row_sorted_aux t d hs hd, sort_arrays_row_perm (d :: t),
    sort_arrays_row_short⟩

/-- C7 witness: the diagonal entry of column `2` bubbles past the sorted tail
with columns `0 < 1`. -/
theorem sort_arrays_single_pass_witness :
    (([((0 : ℕ), (1 : ℚ)), (1, 2)]).Pairwise (fun e f => e.1 < f.1) ∧
        (∀ e ∈ [((0 : ℕ), (1 : ℚ)), (1, 2)], (2 : ℕ) ≠ e.1)) ∧
      (sort_arrays_row ((2, 5) :: [((0 : ℕ), (1 : ℚ)), (1, 2)])).Pairwise
          (fun e f => e.1 < f.1) ∧
        (sort_arrays_row ((2, 5) :: [((0 : ℕ), (1 : ℚ)), (1, 2)])).Perm
          ((2, 5) :: [((0 : ℕ), (1 : ℚ)), (1, 2)]) ∧
        (∀ l : List (ℕ × ℚ), l.length ≤ 1 → sort_arrays_row l = l) :=
  ⟨⟨by decide, by decide⟩,
    sort_arrays_single_pass (2, 5) [((0 : ℕ), (1 : ℚ)), (1, 2)] (by decide) (by decide)⟩

/-- Helper: entries of the `scanl` that builds `Ap` are the partial sums of
the row lengths. -/
lemma scanl_row_lengths_getD :
    ∀ (rows : List (List (ℕ × ℚ))) (init : ℕ) (i : ℕ), i ≤ rows.length →
      (List.scanl (fun a r => a + r.length) init rows).getD i 0 =
        init + ((rows.take i).map List.length).sum
  | [], init, 0, _ => by simp
  | [], init, i + 1, h => by simp at h
  | r :: rs, init, 0, _ => by simp
  | r :: rs, init, i + 1, h => by
      rw [List.scanl_cons]
      simp only [List.singleton_append, List.getD_cons_succ]
      rw [scanl_row_lengths_getD rs (init + r.length) i (by simpa using h)]
      rw [List.take_succ_cons, List.map_cons, List.sum_cons]
      omega

/-- Helper: adding one more row to the prefix adds that row's length to the
partial sum. -/
lemma take_row_lengths_succ :
    ∀ (rows : List (List (ℕ × ℚ))) (j : ℕ), j < rows.length →
      ((rows.take (j + 1)).map List.length).sum =
        ((rows.take j).map List.length).sum + (rows.getD j []).length
  | [], j, h => by simp at h
  | r :: rs, 0, _ => by simp
  | r :: rs, j + 1, h => by
      simp only [List.take_succ_cons, List.map_cons, List.sum_cons, List.getD_cons_succ]
      rw [take_row_lengths_succ rs j (by simpa using h)]
      omega

/-- Helper: copying one row advances only that row's cursor, by the number of
its entries. -/
lemma copy_row_row_pointers :
    ∀ (entries : List (ℕ × ℚ)) (st : FactorizeArrays) (row : ℕ),
      (copy_row st row entries).row_pointers =
        Function.update st.row_pointers row (st.row_pointers row + entries.length)
  | [], st, row => by
      simp [copy_row, Function.update_eq_self]
  | e :: es, st, row => by
      have ih := copy_row_row_pointers es (copy_entry row st e) row
      simp only [copy_row, List.foldl_cons] at ih ⊢
      rw [ih]
      simp only [copy_entry, Function.update_same, Function.update_idem, List.length_cons]
      rw [Nat.add_assoc, Nat.add_comm 1 es.length]

/-- Helper: rows processed later never touch cursors of earlier rows. -/
lemma copy_elements_from_rp_lt :
    ∀ (rs : List (List (ℕ × ℚ))) (k : ℕ) (st : FactorizeArrays) (row : ℕ), row < k →
      (copy_elements_from k rs st).row_pointers row = st.row_pointers row
  | [], _, _, _, _ => rfl
  | r :: rs', k, st, row, h => by
      simp only [copy_elements_from]
      rw [copy_elements_from_rp_lt rs' (k + 1) _ row (Nat.lt_succ_of_lt h)]
      rw [copy_row_row_pointers]
      exact Function.update_noteq (Nat.ne_of_lt h) _ _

/-- Helper: after the outer copy loop starting at row `k`, the cursor of row
`k + i` has advanced by exactly the length of that row. -/
lemma copy_elements_from_rp_at :
    ∀ (rs : List (List (ℕ × ℚ))) (i : ℕ) (k : ℕ) (st : FactorizeArrays), i < rs.length →
      (copy_elements_from k rs st).row_pointers (k + i) =
        st.row_pointers (k + i) + (rs.getD i []).length
  | [], i, _, _, h => absurd h (by simp)
  | r :: rs', 0, k, st, _ => by
      simp only [copy_elements_from, Nat.add_zero, List.getD_cons_zero]
      rw [copy_elements_from_rp_lt rs' (k + 1) _ k (Nat.lt_succ_self k)]
      rw [copy_row_row_pointers]
      simp
  | r :: rs', i + 1, k, st, h => by
      simp only [copy_elements_from]
      have ih := copy_elements_from_rp_at rs' i (k + 1) (copy_row st k r) (by simpa using h)
      rw [show k + (i + 1) = (k + 1) + i by omega]
      rw [ih]
      rw [copy_row_row_pointers]
      rw [Function.update_noteq (by omega)]
      simp

/-- C6: the row-start array of `SparseDirectUMFPACK::factorize` satisfies
`Ap[0] = 0`, the recurrence `Ap[row] = Ap[row-1] + row_length(row-1)` for
`1 ≤ row ≤ N`, and `Ap[N]` equals the total number of stored entries (the
common size `Ai`/`Ax` are resized to); and after the element-copy loop every
per-row write cursor ends exactly at `Ap[row+1]`. -/
theorem factorize_Ap_invariants (rows : List (List (ℕ × ℚ))) :
    (factorize_Ap rows).getD 0 0 = 0 ∧
      (∀ row, 1 ≤ row → row ≤ rows.length →
        (factorize_Ap rows).getD row 0 =
          (factorize_Ap rows).getD (row - 1) 0 + (rows.getD (row - 1) []).length) ∧
      (factorize_Ap rows).getD rows.length 0 = n_nonzero_elements rows ∧
      (∀ row, row < rows.length →
        (factorize_copy rows).row_pointers row = (factorize_Ap rows).getD (row + 1) 0) := by
  refine ⟨?_, ?_, ?_, ?_⟩
  · rw [factorize_Ap, scanl_row_lengths_getD rows 0 0 (Nat.zero_le _)]
    simp
  · intro row h1 h2
    obtain ⟨j, rfl⟩ : ∃ j, row = j + 1 := ⟨row - 1, by omega⟩
    simp only [Nat.add_sub_cancel]
    rw [factorize_Ap, scanl_row_lengths_getD rows 0 (j + 1) h2,
      scanl_row_lengths_getD rows 0 j (by omega),
      take_row_lengths_succ rows j (by omega)]
    omega
  · rw [factorize_Ap, scanl_row_lengths_getD rows 0 rows.length (Nat.le_refl _)]
    simp [n_nonzero_elements]
  · intro row h
    have hat := copy_elements_from_rp_at rows row 0 (factorize_initial_arrays rows) h
    rw [factorize_copy]
    rw [show (0 : ℕ) + row = row from Nat.zero_add row] at hat
    rw [hat]
    have hinit : (factorize_initial_arrays rows).row_pointers row =
        (factorize_Ap rows).getD row 0 := rfl
    rw [hinit]
    rw [factorize_Ap, scanl_row_lengths_getD rows 0 row (by omega),
      scanl_row_lengths_getD rows 0 (row + 1) (by omega),
      take_row_lengths_succ rows row (by omega)]
    omega

/-- C6 witness: a concrete two-row matrix with two entries in the first row
and one in the second. -/
theorem factorize_Ap_invariants_witness :
    ((1 : ℕ) ≤ 1 ∧ (1 : ℕ) ≤ 2 ∧ (0 : ℕ) < 2) ∧
      (factorize_Ap [[((0 : ℕ), (1 : ℚ)), (1, 2)], [(1, 3)]]).getD 0 0 = 0 ∧
      (factorize_Ap [[((0 : ℕ), (1 : ℚ)), (1, 2)], [(1, 3)]]).getD 1 0 =
        (factorize_Ap [[((0 : ℕ), (1 : ℚ)), (1, 2)], [(1, 3)]]).getD 0 0 +
          ([[((0 : ℕ), (1 : ℚ)), (1, 2)], [(1, 3)]].getD 0 []).length ∧
      (factorize_Ap [[((0 : ℕ), (1 : ℚ)), (1, 2)], [(1, 3)]]).getD 2 0 =
        n_nonzero_elements [[((0 : ℕ), (1 : ℚ)), (1, 2)], [(1, 3)]] ∧
      (factorize_copy [[((0 : ℕ), (1 : ℚ)), (1, 2)], [(1, 3)]]).row_pointers 0 =
        (factorize_Ap [[((0 : ℕ), (1 : ℚ)), (1, 2)], [(1, 3)]]).getD 1 0 := by
  obtain ⟨h0, hrec, hlast, hrp⟩ :=
    factorize_Ap_invariants [[((0 : ℕ), (1 : ℚ)), (1, 2)], [(1, 3)]]
  refine ⟨⟨le_refl 1, ?_, ?_⟩, h0, ?_, ?_, ?_⟩
  · omega
  · omega
  · simpa using hrec 1 (le_refl 1) (by simp)
  · exact hlast
  · exact hrp 0 (by simp)

/-- Helper: closed form of the inner MUMPS row loop: it keeps exactly the
entries of absolute value greater than zero, mapped to value, 1-based row and
1-based column. -/
lemma initialize_matrix_row_eq (row : ℕ) :
    ∀ r : List (ℕ × ℚ),
      initialize_matrix_row row r =
        (((r.map (fun e => (row, e.1, e.2))).filter (fun t => |t.2.2| > 0)).map
            (fun t => t.2.2),
          ((r.map (fun e => (row, e.1, e.2))).filter (fun t => |t.2.2| > 0)).map
            (fun t => t.1 + 1),
          ((r.map (fun e => (row, e.1, e.2))).filter (fun t => |t.2.2| > 0)).map
            (fun t => t.2.1 + 1))
  | [] => by simp [initialize_matrix_row]
  | e :: es => by
      simp only [initialize_matrix_row, initialize_matrix_row_eq row es, List.map_cons,
        List.filter_cons]
      by_cases h : |e.2| > 0
      · simp [h]
      · simp [h]

/-- Helper: closed form of the outer MUMPS loop from an arbitrary first row
index. -/
lemma initialize_matrix_from_eq :
    ∀ (rs : List (List (ℕ × ℚ))) (row : ℕ),
      initialize_matrix_from row rs =
        (((row_major_entries_from row rs).filter (fun t => |t.2.2| > 0)).map
            (fun t => t.2.2),
          ((row_major_entries_from row rs).filter (fun t => |t.2.2| > 0)).map
            (fun t => t.1 + 1),
          ((row_major_entries_from row rs).filter (fun t => |t.2.2| > 0)).map
            (fun t => t.2.1 + 1))
  | [], row => by simp [initialize_matrix_from, row_major_entries_from]
  | r :: rs', row => by
      simp only [initialize_matrix_from, row_major_entries_from,
        initialize_matrix_row_eq row r, initialize_matrix_from_eq rs' (row + 1),
        List.filter_append, List.map_append]

/-- C10: `SparseDirectMUMPS::initialize_matrix` copies into `a`, `irn`, `jcn`
exactly the stored entries of absolute value strictly greater than zero, in
row-major order, with 1-based indices: the k-th kept entry contributes its
value to `a`, its row index plus one to `irn` and its column index plus one
to `jcn`. -/
theorem initialize_matrix_keeps_nonzero (rows : List (List (ℕ × ℚ))) :
    initialize_matrix rows =
      ((mumps_kept_entries rows).map (fun t => t.2.2),
        (mumps_kept_entries rows).map (fun t => t.1 + 1),
        (mumps_kept_entries rows).map (fun t => t.2.1 + 1)) := by
  rw [initialize_matrix, mumps_kept_entries]
  exact initialize_matrix_from_eq rows 0

/-- Helper: the textbook formula with `-sqrt` yields a quadratic root. -/
lemma quadratic_root_textbook_minus (a b c s : ℚ) (ha : a ≠ 0)
    (hss : s * s = b * b - 4 * a * c) :
    a * ((-b - s) / (2 * a)) ^ 2 + b * ((-b - s) / (2 * a)) + c = 0 := by
  field_simp
  linear_combination (2 * a ^ 2) * hss

/-- Helper: the textbook formula with `+sqrt` yields a quadratic root. -/
lemma quadratic_root_textbook_plus (a b c s : ℚ) (ha : a ≠ 0)
    (hss : s * s = b * b - 4 * a * c) :
    a * ((-b + s) / (2 * a)) ^ 2 + b * ((-b + s) / (2 * a)) + c = 0 := by
  field_simp
  linear_combination (2 * a ^ 2) * hss

/-- Helper: the stable formula with `-sqrt` yields a quadratic root. -/
lemma quadratic_root_stable_minus (a b c s : ℚ) (hden : -b - s ≠ 0)
    (hss : s * s = b * b - 4 * a * c) :
    a * (2 * c / (-b - s)) ^ 2 + b * (2 * c / (-b - s)) + c = 0 := by
  field_simp
  linear_combination (c * (-b - s)) * hss

/-- Helper: the stable formula with `+sqrt` yields a quadratic root. -/
lemma quadratic_root_stable_plus (a b c s : ℚ) (hden : -b + s ≠ 0)
    (hss : s * s = b * b - 4 * a * c) :
    a * (2 * c / (-b + s)) ^ 2 + b * (2 * c / (-b + s)) + c = 0 := by
  field_simp
  linear_combination (c * (s - b)) * hss

/-- Helper: unless `b = 0` together with a vanishing discriminant (where the
stable branch divides by `sqrt(0) = 0`), the first candidate `eta1` is a root
of the quadratic. -/
lemma eta1_of_root (v : Fin 4 → ℚ × ℚ) (p : ℚ × ℚ) (s : ℚ)
    (hnz : ¬(quad_b v p = 0 ∧ quad_disc v p = 0)) (hss : s * s = quad_disc v p) :
    quad_a v * eta1_of v p s ^ 2 + quad_b v p * eta1_of v p s + quad_c v p = 0 := by
  have hss' : s * s = quad_b v p * quad_b v p - 4 * quad_a v * quad_c v p := by
    rw [hss, quad_disc]
  rw [eta1_of]
  split_ifs with h1 h2
  · obtain ⟨ha0, hbne⟩ := h1
    rw [ha0]
    field_simp
    ring
  · obtain ⟨hbne, hsmall⟩ := h2
    have ha : quad_a v ≠ 0 := fun h0 => h1 ⟨h0, hbne⟩
    exact quadratic_root_textbook_minus _ _ _ _ ha hss'
  · have hden : -quad_b v p - s ≠ 0 := by
      intro h0
      have hs_eq : s = -quad_b v p := by linarith
      have hac : 4 * quad_a v * quad_c v p = 0 := by
        rw [hs_eq] at hss'
        linear_combination hss'
      by_cases hb : quad_b v p = 0
      · apply hnz
        refine ⟨hb, ?_⟩
        rw [← hss, hs_eq, hb]
        ring
      · have hc : quad_c v p ≠ 0 := by
          intro hc0
          exact h2 ⟨hb, by rw [hc0]; simp⟩
        have ha0 : quad_a v = 0 := by
          rcases mul_eq_zero.mp hac with h5 | h5
          · rcases mul_eq_zero.mp h5 with h6 | h6
            · norm_num at h6
            · exact h6
          · exact absurd h5 hc
        exact h1 ⟨ha0, hb⟩
    exact quadratic_root_stable_minus _ _ _ _ hden hss'

/-- Helper: unless `b = 0` together with a vanishing discriminant, the second
candidate `eta2` is a root of the quadratic. -/
lemma eta2_of_root (v : Fin 4 → ℚ × ℚ) (p : ℚ × ℚ) (s : ℚ)
    (hnz : ¬(quad_b v p = 0 ∧ quad_disc v p = 0)) (hss : s * s = quad_disc v p) :
    quad_a v * eta2_of v p s ^ 2 + quad_b v p * eta2_of v p s + quad_c v p = 0 := by
  have hss' : s * s = quad_b v p * quad_b v p - 4 * quad_a v * quad_c v p := by
    rw [hss, quad_disc]
  rw [eta2_of]
  split_ifs with h1 h2
  · obtain ⟨ha0, hbne⟩ := h1
    rw [ha0]
    field_simp
    ring
  · obtain ⟨hbne, hsmall⟩ := h2
    have ha : quad_a v ≠ 0 := fun h0 => h1 ⟨h0, hbne⟩
    exact quadratic_root_textbook_plus _ _ _ _ ha hss'
  · have hden : -quad_b v p + s ≠ 0 := by
      intro h0
      have hs_eq : s = quad_b v p := by linarith
      have hac : 4 * quad_a v * quad_c v p = 0 := by
        rw [hs_eq] at hss'
        linear_combination hss'
      by_cases hb : quad_b v p = 0
      · apply hnz
        refine ⟨hb, ?_⟩
        rw [← hss, hs_eq, hb]
        ring
      · have hc : quad_c v p ≠ 0 := by
          intro hc0
          exact h2 ⟨hb, by rw [hc0]; simp⟩
        have ha0 : quad_a v = 0 := by
          rcases mul_eq_zero.mp hac with h5 | h5
          · rcases mul_eq_zero.mp h5 with h6 | h6
            · norm_num at h6
            · exact h6
          · exact absurd h5 hc
        exact h1 ⟨ha0, hb⟩
    exact quadratic_root_stable_plus _ _ _ _ hden hss'

/-- Helper: the selected `eta` is one of the two candidates and is weakly
closest to `1/2` among them. -/
lemma eta_of_closest (v : Fin 4 → ℚ × ℚ) (p : ℚ × ℚ) (s : ℚ) :
    (eta_of v p s = eta1_of v p s ∨ eta_of v p s = eta2_of v p s) ∧
      |eta_of v p s - 1/2| ≤ |eta1_of v p s - 1/2| ∧
      |eta_of v p s - 1/2| ≤ |eta2_of v p s - 1/2| := by
  rw [eta_of]
  split_ifs with h
  · exact ⟨Or.inl rfl, le_refl _, le_of_lt h⟩
  · exact ⟨Or.inr rfl, not_lt.mp h, le_refl _⟩

/-- C4 (amended): with `s` modelling `sqrt(discriminant)`, and excluding only
the inputs with `b = 0` and a vanishing discriminant (there the stable branch
divides `2c` by `sqrt(0) = 0`, so the computation leaves exact arithmetic):
the function returns `(2,2)` when the discriminant is negative, and when both
xi-denominators fall at or below their relative tolerances; when the
discriminant is nonnegative and the first denominator exceeds its tolerance
it returns `((x + subexpr0)/xi_denominator0, eta)`; when only the second does
it returns `((subexpr1 + y)/xi_denominator1, eta)`; and `eta` is a root of
`a*eta^2 + b*eta + c = 0` chosen among the two candidate roots as the one
(weakly) closer to `1/2`. -/
theorem transform_real_to_unit_cell_2d_spec (v : Fin 4 → ℚ × ℚ) (p : ℚ × ℚ) (s : ℚ)
    (hnz : ¬(quad_b v p = 0 ∧ quad_disc v p = 0))
    (hs : 0 ≤ quad_disc v p → s * s = quad_disc v p ∧ 0 ≤ s) :
    (quad_disc v p < 0 → transform_real_to_unit_cell_2d v p s = (2, 2)) ∧
      (¬ |xi_denominator0_of v p s| > 1/10^10 * max_x_of v →
        ¬ |xi_denominator1_of v p s| > 1/10^10 * max_y_of v →
        transform_real_to_unit_cell_2d v p s = (2, 2)) ∧
      (0 ≤ quad_disc v p → |xi_denominator0_of v p s| > 1/10^10 * max_x_of v →
        transform_real_to_unit_cell_2d v p s =
          ((p.1 + subexpr0_of v p s) / xi_denominator0_of v p s, eta_of v p s)) ∧
      (0 ≤ quad_disc v p → ¬ |xi_denominator0_of v p s| > 1/10^10 * max_x_of v →
        |xi_denominator1_of v p s| > 1/10^10 * max_y_of v →
        transform_real_to_unit_cell_2d v p s =
          ((subexpr1_of v p s + p.2) / xi_denominator1_of v p s, eta_of v p s)) ∧
      (0 ≤ quad_disc v p →
        quad_a v * eta_of v p s ^ 2 + quad_b v p * eta_of v p s + quad_c v p = 0) ∧
      (eta_of v p s = eta1_of v p s ∨ eta_of v p s = eta2_of v p s) ∧
      |eta_of v p s - 1/2| ≤ |eta1_of v p s - 1/2| ∧
      |eta_of v p s - 1/2| ≤ |eta2_of v p s - 1/2| := by
  obtain ⟨hchoice, hle1, hle2⟩ := eta_of_closest v p s
  refine ⟨?_, ?_, ?_, ?_, ?_, hchoice, hle1, hle2⟩
  · intro hneg
    rw [transform_real_to_unit_cell_2d, if_pos hneg]
  · intro h0 h1
    by_cases hneg : quad_disc v p < 0
    · rw [transform_real_to_unit_cell_2d, if_pos hneg]
    · rw [transform_real_to_unit_cell_2d, if_neg hneg, if_neg h0, if_neg h1]
  · intro hdisc h0
    rw [transform_real_to_unit_cell_2d, if_neg (not_lt.mpr hdisc), if_pos h0]
  · intro hdisc h0 h1
    rw [transform_real_to_unit_cell_2d, if_neg (not_lt.mpr hdisc), if_neg h0, if_pos h1]
  · intro hdisc
    have hss : s * s = quad_disc v p := (hs hdisc).1
    rcases hchoice with h | h <;> rw [h]
    · exact eta1_of_root v p s hnz hss
    · exact eta2_of_root v p s hnz hss

/-- Helper: on the unit square the bilinear map degenerates, `a = 0`. -/
lemma unit_square_quad_a : quad_a unit_square_vertices = 0 := by
  norm_num [quad_a, unit_square_vertices, Matrix.cons_val_zero, Matrix.cons_val_one,
    Matrix.cons_val_two, Matrix.cons_val_three, Matrix.head_cons, Matrix.tail_cons]

/-- Helper: on the unit square `b = 1` for every point. -/
lemma unit_square_quad_b (p : ℚ × ℚ) : quad_b unit_square_vertices p = 1 := by
  norm_num [quad_b, unit_square_vertices, Matrix.cons_val_zero, Matrix.cons_val_one,
    Matrix.cons_val_two, Matrix.cons_val_three, Matrix.head_cons, Matrix.tail_cons]

/-- Helper: on the unit square `c = -y` for every point. -/
lemma unit_square_quad_c (p : ℚ × ℚ) : quad_c unit_square_vertices p = -p.2 := by
  norm_num [quad_c, unit_square_vertices, Matrix.cons_val_zero, Matrix.cons_val_one,
    Matrix.cons_val_two, Matrix.cons_val_three, Matrix.head_cons, Matrix.tail_cons]

/-- Helper: on the unit square the discriminant is identically `1`. -/
lemma unit_square_quad_disc (p : ℚ × ℚ) : quad_disc unit_square_vertices p = 1 := by
  rw [quad_disc, unit_square_quad_b, unit_square_quad_a, unit_square_quad_c]
  ring

/-- Helper: on the unit square both candidate roots equal `y`. -/
lemma unit_square_eta1 (p : ℚ × ℚ) (s : ℚ) : eta1_of unit_square_vertices p s = p.2 := by
  rw [eta1_of, if_pos ⟨unit_square_quad_a, by rw [unit_square_quad_b]; norm_num⟩,
    unit_square_quad_c, unit_square_quad_b]
  norm_num

/-- Helper: on the unit square both candidate roots equal `y`. -/
lemma unit_square_eta2 (p : ℚ × ℚ) (s : ℚ) : eta2_of unit_square_vertices p s = p.2 := by
  rw [eta2_of, if_pos ⟨unit_square_quad_a, by rw [unit_square_quad_b]; norm_num⟩,
    unit_square_quad_c, unit_square_quad_b]
  norm_num

/-- Helper: on the unit square the selected root is `y`. -/
lemma unit_square_eta (p : ℚ × ℚ) (s : ℚ) : eta_of unit_square_vertices p s = p.2 := by
  rw [eta_of, unit_square_eta1, unit_square_eta2]
  simp

/-- Helper: on the unit square `subexpr0 = 0`. -/
lemma unit_square_subexpr0 (p : ℚ × ℚ) (s : ℚ) :
    subexpr0_of unit_square_vertices p s = 0 := by
  rw [subexpr0_of]
  norm_num [unit_square_vertices, Matrix.cons_val_zero, Matrix.cons_val_two,
    Matrix.head_cons, Matrix.tail_cons]

/-- Helper: on the unit square the first xi-denominator is `1`. -/
lemma unit_square_den0 (p : ℚ × ℚ) (s : ℚ) :
    xi_denominator0_of unit_square_vertices p s = 1 := by
  rw [xi_denominator0_of, unit_square_subexpr0]
  norm_num [unit_square_vertices, Matrix.cons_val_one, Matrix.cons_val_three,
    Matrix.head_cons, Matrix.tail_cons]

/-- Helper: on the unit square `max_x = 1`. -/
lemma unit_square_max_x : max_x_of unit_square_vertices = 1 := by
  norm_num [max_x_of, unit_square_vertices, Matrix.cons_val_zero, Matrix.cons_val_one,
    Matrix.cons_val_two, Matrix.cons_val_three, Matrix.head_cons, Matrix.tail_cons]

/-- C4 counterexample: on the unit square with `p = (2,2)` and the correct
square root `s = 1` of the discriminant, the function returns the value
`(2,2)` although the discriminant is nonnegative and the first xi-denominator
exceeds its tolerance — so "returns (2,2)" is not equivalent to "discriminant
negative or both denominators at or below tolerance": the sentinel coincides
with a regularly computed point. -/
theorem transform_real_to_unit_cell_2d_sentinel_ambiguous :
    (1 : ℚ) * 1 = quad_disc unit_square_vertices (2, 2) ∧ (0 : ℚ) ≤ 1 ∧
      ¬ quad_disc unit_square_vertices (2, 2) < 0 ∧
      |xi_denominator0_of unit_square_vertices (2, 2) 1| >
        1/10^10 * max_x_of unit_square_vertices ∧
      transform_real_to_unit_cell_2d unit_square_vertices (2, 2) 1 = (2, 2) := by
  have hden : |xi_denominator0_of unit_square_vertices (2, 2) 1| >
      1/10^10 * max_x_of unit_square_vertices := by
    rw [unit_square_den0, unit_square_max_x]
    norm_num
  refine ⟨by rw [unit_square_quad_disc]; norm_num, by norm_num,
    by rw [unit_square_quad_disc]; norm_num, hden, ?_⟩
  rw [transform_real_to_unit_cell_2d,
    if_neg (by rw [unit_square_quad_disc]; norm_num), if_pos hden,
    unit_square_subexpr0, unit_square_den0, unit_square_eta]
  norm_num

/-- C4 witness for the amended claim: the unit square with `p = (3/10, 2/5)`
and `s = 1`; `b = 1` so the excluded degenerate case does not apply, the
first denominator is `1`, far above its tolerance, and the returned point is
built from the first xi-formula with the selected root `eta = 2/5`. -/
theorem transform_real_to_unit_cell_2d_spec_witness :
    (¬(quad_b unit_square_vertices (3/10, 2/5) = 0 ∧
          quad_disc unit_square_vertices (3/10, 2/5) = 0) ∧
        (0 ≤ quad_disc unit_square_vertices (3/10, 2/5) →
          (1 : ℚ) * 1 = quad_disc unit_square_vertices (3/10, 2/5) ∧ (0 : ℚ) ≤ 1) ∧
        0 ≤ quad_disc unit_square_vertices (3/10, 2/5) ∧
        |xi_denominator0_of unit_square_vertices (3/10, 2/5) 1| >
          1/10^10 * max_x_of unit_square_vertices) ∧
      transform_real_to_unit_cell_2d unit_square_vertices (3/10, 2/5) 1 =
        ((((3/10 : ℚ), (2/5 : ℚ)).1 + subexpr0_of unit_square_vertices (3/10, 2/5) 1) /
            xi_denominator0_of unit_square_vertices (3/10, 2/5) 1,
          eta_of unit_square_vertices (3/10, 2/5) 1) ∧
      quad_a unit_square_vertices * eta_of unit_square_vertices (3/10, 2/5) 1 ^ 2 +
          quad_b unit_square_vertices (3/10, 2/5) * eta_of unit_square_vertices (3/10, 2/5) 1 +
          quad_c unit_square_vertices (3/10, 2/5) = 0 ∧
      (eta_of unit_square_vertices (3/10, 2/5) 1 = eta1_of unit_square_vertices (3/10, 2/5) 1 ∨
        eta_of unit_square_vertices (3/10, 2/5) 1 = eta2_of unit_square_vertices (3/10, 2/5) 1) ∧
      |eta_of unit_square_vertices (3/10, 2/5) 1 - 1/2| ≤
        |eta1_of unit_square_vertices (3/10, 2/5) 1 - 1/2| ∧
      |eta_of unit_square_vertices (3/10, 2/5) 1 - 1/2| ≤
        |eta2_of unit_square_vertices (3/10, 2/5) 1 - 1/2| := by
  have hnz : ¬(quad_b unit_square_vertices (3/10, 2/5) = 0 ∧
      quad_disc unit_square_vertices (3/10, 2/5) = 0) := by
    rintro ⟨hb0, -⟩
    rw [unit_square_quad_b] at hb0
    norm_num at hb0
  have hdisc : 0 ≤ quad_disc unit_square_vertices (3/10, 2/5) := by
    rw [unit_square_quad_disc]; norm_num
  have hs : 0 ≤ quad_disc unit_square_vertices (3/10, 2/5) →
      (1 : ℚ) * 1 = quad_disc unit_square_vertices (3/10, 2/5) ∧ (0 : ℚ) ≤ 1 := by
    intro _
    rw [unit_square_quad_disc]
    norm_num
  have hden : |xi_denominator0_of unit_square_vertices (3/10, 2/5) 1| >
      1/10^10 * max_x_of unit_square_vertices := by
    rw [unit_square_den0, unit_square_max_x]
    norm_num
  obtain ⟨-, -, h3a, -, hroot, hch, hl1, hl2⟩ :=
    transform_real_to_unit_cell_2d_spec unit_square_vertices (3/10, 2/5) 1 hnz
      (fun h => by rw [unit_square_quad_disc]; norm_num)
  exact ⟨⟨hnz, hs, hdisc, hden⟩, h3a hdisc hden, hroot hdisc, hch, hl1, hl2⟩
